import Mathlib

/-!
Shallow embedding of the persistence-kit repository core:
the criteria filter model (`filter_ops.py`), the three backend
translators (memory / document-store / relational), the memory
repository state machine, and the relation-population engine.

Conventions of the embedding:
* Python dicts are association lists with Python `dict` semantics:
  assignment updates the binding in place when the key is present and
  appends otherwise, lookup returns the first (unique) binding.
* Python `None` is `Option.none`; a field read on an entity
  (`_get_field_value`) returns `Option V`, conflating "absent" and
  "stored None" exactly as `getattr(entity, field, None)` does.
* Code that can raise is embedded in `Except String`; the string is the
  exception's message family (`ValueError`, `TypeError`, ...).
* Entities are an opaque type `T`; attribute access, identity extraction
  and index extractors are supplied as functions, exactly the shape the
  source receives them in (`id_getter`, `unique_indexes`, `getattr`).
-/

set_option maxHeartbeats 1000000

namespace PersistenceKit

/-! ### Python dict semantics over association lists -/

variable {K A : Type}

/-- Python `d.get(k)`: first binding of `k`, or `None`. -/
def dictGet [DecidableEq K] : List (K × A) → K → Option A
  | [], _ => none
  | (k', a) :: rest, k => if k' = k then some a else dictGet rest k

/-- Python `d[k] = a`: replace the binding in place when present, append otherwise. -/
def dictSet [DecidableEq K] : List (K × A) → K → A → List (K × A)
  | [], k, a => [(k, a)]
  | (k', a') :: rest, k, a =>
    if k' = k then (k, a) :: rest else (k', a') :: dictSet rest k a

/-- Python `d.pop(k, None)` (the removing half): drop the binding of `k` if present. -/
def dictRemove [DecidableEq K] : List (K × A) → K → List (K × A)
  | [], _ => []
  | (k', a') :: rest, k => if k' = k then rest else (k', a') :: dictRemove rest k

/-! ### The criteria model

A criterion value in `list_by_fields` is one of: Python `None`, a list
(`is_multi_value`), a dict of range operators (`is_range_dict`), or a
plain scalar.  A range-operator argument is a scalar (possibly `None`)
or a list. -/

/-- Argument of a single range operator (`{"gte": v}`, `{"in": [...]}`, ...). -/
inductive RVal (V : Type) where
  | scalar (v : Option V)
  | vlist (vs : List (Option V))
deriving DecidableEq

/-- A criterion attached to one field in a criteria mapping. -/
inductive Cond (V : Type) where
  | null
  | multi (vs : List (Option V))
  | range (ops : List (String × RVal V))
  | scalar (v : V)
deriving DecidableEq

/-- Embeds `filter_ops._SIMPLE_OPS`. -/
def simpleOps : List String := ["gte", "gt", "lte", "lt", "eq", "ne"]

variable {V : Type}

/-- One validation step of `filter_ops.iter_range_ops`'s loop body. -/
def checkRangeOp (op : String) (v : RVal V) : Except String Unit :=
  if op = "between" then
    match v with
    | .vlist vs =>
      if vs.length = 2 then .ok ()
      else .error "between expects a list with exactly two values"
    | .scalar _ => .error "between expects a list with exactly two values"
  else if op = "in" then
    match v with
    | .vlist _ => .ok ()
    | .scalar _ => .error "in expects a list"
  else if op ∈ simpleOps then .ok ()
  else .error ("Unsupported operator: " ++ op)

/-- The validation loop of `iter_range_ops` over all items. -/
def checkRangeOps : List (String × RVal V) → Except String Unit
  | [] => .ok ()
  | (op, v) :: rest => do
    checkRangeOp op v
    checkRangeOps rest

/-- Embeds `filter_ops.iter_range_ops`: an empty dict yields `[]`; otherwise every
item is validated (raising `ValueError` on a malformed one) and the items
are returned unchanged. -/
def iter_range_ops (value : List (String × RVal V)) : Except String (List (String × RVal V)) :=
  if value.isEmpty then .ok []
  else do
    checkRangeOps value
    .ok value

/-! ### The vacuous-query scan

All three backends start `list_by_fields` with the same loop:

    for v in criteria.values():
        if is_multi_value(v) and not v: return []
        if is_range_dict(v) and v.get("in") == []: return []

The loop is repeated verbatim in `memory_repo.list_by_fields`,
`mongo_repo._find_by_fields` and `sqlalchemy_repo._select_by_fields`;
it is embedded once here and used by the three translator embeddings. -/

/-- Tests `is_multi_value(v) and not v`. -/
def isEmptyMulti : Cond V → Bool
  | .multi vs => vs.isEmpty
  | _ => false

/-- Tests `is_range_dict(v) and v.get("in") == []`. -/
def hasEmptyIn [DecidableEq V] : Cond V → Bool
  | .range ops => decide (dictGet ops "in" = some (.vlist []))
  | _ => false

/-- The early-return scan over the criteria values. -/
def vacuousScan [DecidableEq V] : List (String × Cond V) → Bool
  | [] => false
  | (_, v) :: rest => isEmptyMulti v || hasEmptyIn v || vacuousScan rest

/-! ### Memory backend: predicate evaluation (`memory_repo._match_value`) -/

/-- Evaluating Python `val < arg` / `val > arg` needs a comparable argument:
`None` or a list on the right raises `TypeError`. -/
def cmpArg : RVal V → Except String V
  | .scalar (some s) => .ok s
  | .scalar none => .error "TypeError: comparison not supported with None"
  | .vlist _ => .error "TypeError: comparison not supported with list"

/-- As `cmpArg`, for the two halves of a `between` pair. -/
def cmpOptArg : Option V → Except String V
  | some s => .ok s
  | none => .error "TypeError: comparison not supported with None"

/-- One operator of `_match_value`'s range loop: `.ok true` means the
operator passes and the loop continues, `.ok false` means `return False`.
The branch order and the comparison short-circuits mirror the source:
e.g. `val is None or val < lo or val > hi` never evaluates `val > hi`
when `val < lo` already holds. -/
def matchRangeOp [LinearOrder V] (val : Option V) (op : String) (rv : RVal V) :
    Except String Bool :=
  if op = "between" then
    match rv with
    | .vlist [lo, hi] =>
      match val with
      | none => .ok false
      | some a => do
        let l ← cmpOptArg lo
        if a < l then .ok false
        else do
          let h ← cmpOptArg hi
          .ok (decide ¬(h < a))
    | _ => .error "ValueError: not enough values to unpack"
  else if op = "gte" then
    match val with
    | none => .ok false
    | some a => do
      let w ← cmpArg rv
      .ok (decide ¬(a < w))
  else if op = "gt" then
    match val with
    | none => .ok false
    | some a => do
      let w ← cmpArg rv
      .ok (decide (w < a))
  else if op = "lte" then
    match val with
    | none => .ok false
    | some a => do
      let w ← cmpArg rv
      .ok (decide ¬(w < a))
  else if op = "lt" then
    match val with
    | none => .ok false
    | some a => do
      let w ← cmpArg rv
      .ok (decide (a < w))
  else if op = "in" then
    match rv with
    | .vlist vs => .ok (decide (val ∈ vs))
    | .scalar _ => .error "TypeError: argument is not iterable"
  else if op = "eq" then
    .ok (match rv with | .scalar s => decide (val = s) | .vlist _ => false)
  else if op = "ne" then
    .ok (match rv with | .scalar s => decide (val ≠ s) | .vlist _ => true)
  else
    -- an operator outside the if/elif chain falls through and the loop
    -- continues; `iter_range_ops` has already rejected it upstream
    .ok true

/-- The range loop of `_match_value`: all operators must pass. -/
def matchRangeList [LinearOrder V] (val : Option V) :
    List (String × RVal V) → Except String Bool
  | [] => .ok true
  | (op, rv) :: rest => do
    let pass ← matchRangeOp val op rv
    if pass then matchRangeList val rest else .ok false

/-- Embeds `memory_repo._match_value`. -/
def matchValue [LinearOrder V] (val : Option V) (cond : Cond V) : Except String Bool :=
  match cond with
  | .null => .ok (decide (val = none))
  | .multi vs => .ok (decide (val ∈ vs))
  | .range ops => do
    let items ← iter_range_ops ops
    if items.isEmpty then .ok false
    else matchRangeList val items
  | .scalar v => .ok (decide (val = some v))

/-! ### Memory backend: CPython's `list.sort(key=..., reverse=...)`

CPython's sort is a stable sort; with `reverse=True` it sorts under the
reversed comparator while still keeping equal elements in their original
order.  A stable sorted permutation is unique, so a stable insertion
sort is an observationally exact model of Timsort.  Comparing a `None`
key with anything raises `TypeError`; run detection compares every
adjacent pair, so any `None` key raises as soon as the list has at
least two elements, and a list of at most one element is returned
without any comparison. -/

variable {T Id W : Type}

/-- Stable keyed insertion preserving original order on key ties
(`desc` is the `reverse=True` flag). -/
def pyInsertK [LinearOrder V] (desc : Bool) (key : T → V) (x : T) : List T → List T
  | [] => [x]
  | y :: ys =>
    if (if desc then key y ≤ key x else key x ≤ key y) then x :: y :: ys
    else y :: pyInsertK desc key x ys

/-- Stable keyed sort (the unique output of any stable sort under the
given comparator). -/
def pySortK [LinearOrder V] (desc : Bool) (key : T → V) : List T → List T
  | [] => []
  | x :: xs => pyInsertK desc key x (pySortK desc key xs)

/-- Embeds `vals.sort(key=lambda e: _get_field_value(e, f), reverse=desc)`:
with at most one element no comparison runs; otherwise any `None` key
raises `TypeError`, and with all keys present the stable sort runs. -/
def pySortByField [LinearOrder V] [Inhabited V] (getKey : T → Option V) (desc : Bool)
    (vals : List T) : Except String (List T) :=
  if vals.length ≤ 1 then .ok vals
  else if vals.all (fun e => (getKey e).isSome) then
    .ok (pySortK desc (fun e => (getKey e).getD default) vals)
  else .error "TypeError: comparison not supported with None"

/-! ### Memory backend: `MemoryRepository` state machine -/

/-- The constructor arguments of `MemoryRepository` plus entity attribute
access: `idGetter` is `id_getter`, `extractors` is `unique_indexes`
(name → extractor), `getField` is `_get_field_value` on this entity
type, and `idTruthy` is Python truthiness of an identity value
(`get_by_index` tests `if eid`). -/
structure MemCfg (T Id V : Type) where
  idGetter : T → Id
  extractors : List (String × (T → V))
  idTruthy : Id → Bool
  getField : T → String → Option V

/-- The mutable state of a `MemoryRepository`: `_items` and `_indexes`. -/
structure MemState (T Id V : Type) where
  items : List (Id × T)
  indexes : List (String × List (V × Id))
deriving DecidableEq

namespace MemoryRepository

/-- Embeds `__init__`: empty items, one empty index per extractor name. -/
def init (cfg : MemCfg T Id V) : MemState T Id V :=
  ⟨[], cfg.extractors.map (fun p => (p.1, []))⟩

/-- The index-writing loop shared by `add` and `update`:
`self._indexes[name][ext(entity)] = eid` for each extractor.  (`name`
is always present in `_indexes` since both dicts are built from the
same `unique_indexes` argument; `getD []` covers the impossible miss.) -/
def writeIndexes [DecidableEq V] (cfg : MemCfg T Id V) (e : T) (eid : Id)
    (ix : List (String × List (V × Id))) : List (String × List (V × Id)) :=
  cfg.extractors.foldl
    (fun acc p => dictSet acc p.1 (dictSet ((dictGet acc p.1).getD []) (p.2 e) eid))
    ix

/-- Embeds `MemoryRepository.add`. -/
def add [DecidableEq Id] [DecidableEq V] (cfg : MemCfg T Id V)
    (st : MemState T Id V) (e : T) : MemState T Id V :=
  let eid := cfg.idGetter e
  { items := dictSet st.items eid e
    indexes := writeIndexes cfg e eid st.indexes }

/-- Embeds `MemoryRepository.update` — its body is the same statement sequence
as `add`'s (`self._items[eid] = entity` then the index loop). -/
def update [DecidableEq Id] [DecidableEq V] (cfg : MemCfg T Id V)
    (st : MemState T Id V) (e : T) : MemState T Id V :=
  let eid := cfg.idGetter e
  { items := dictSet st.items eid e
    indexes := writeIndexes cfg e eid st.indexes }

/-- Embeds `MemoryRepository.delete`.  `self._items.pop(entity_id, None)` then
`if not ent: return`; entities here are dataclass instances, which are
always truthy, so the guard is an absence check.  For each extractor the
entry for the entity's *current* indexed value is removed, and only when
it still points at this identity. -/
def delete [DecidableEq Id] [DecidableEq V] (cfg : MemCfg T Id V)
    (st : MemState T Id V) (eid : Id) : MemState T Id V :=
  match dictGet st.items eid with
  | none => { st with items := dictRemove st.items eid }
  | some ent =>
    { items := dictRemove st.items eid
      indexes := cfg.extractors.foldl
        (fun acc p =>
          let idx := (dictGet acc p.1).getD []
          if dictGet idx (p.2 ent) = some eid then
            dictSet acc p.1 (dictRemove idx (p.2 ent))
          else acc)
        st.indexes }

/-- Embeds `MemoryRepository.get`. -/
def get [DecidableEq Id] (st : MemState T Id V) (eid : Id) : Option T :=
  dictGet st.items eid

/-- Embeds `MemoryRepository.get_by_index`: a missing or *empty* index dict is
falsy (`if not idx`), and a falsy identity value (`if eid`) also yields
`None`. -/
def getByIndex [DecidableEq Id] [DecidableEq V] (cfg : MemCfg T Id V)
    (st : MemState T Id V) (index : String) (value : V) : Option T :=
  match dictGet st.indexes index with
  | none => none
  | some idx =>
    if idx.isEmpty then none
    else
      match dictGet idx value with
      | none => none
      | some eid => if cfg.idTruthy eid then dictGet st.items eid else none

/-- Embeds `MemoryRepository.list`: snapshot of `_items.values()` in insertion
order, optional keyed sort, then the slice `vals[offset : offset+limit]`. -/
def list [LinearOrder V] [Inhabited V] (cfg : MemCfg T Id V) (st : MemState T Id V)
    (offset limit : Nat) (sortBy : Option String) (sortDesc : Bool) :
    Except String (List T) :=
  let vals := st.items.map Prod.snd
  match sortBy with
  | none => .ok ((vals.drop offset).take limit)
  | some f => do
    let sorted ← pySortByField (fun e => cfg.getField e f) sortDesc vals
    .ok ((sorted.drop offset).take limit)

/-- The inner criteria loop of `list_by_fields` for one entity
(breaks at the first failing criterion). -/
def entityMatches [LinearOrder V] (cfg : MemCfg T Id V) (ent : T) :
    List (String × Cond V) → Except String Bool
  | [] => .ok true
  | (k, v) :: rest => do
    let b ← matchValue (cfg.getField ent k) v
    if b then entityMatches cfg ent rest else .ok false

/-- The matching loop of `list_by_fields` over all stored entities. -/
def filterEntities [LinearOrder V] (cfg : MemCfg T Id V)
    (criteria : List (String × Cond V)) : List T → Except String (List T)
  | [] => .ok []
  | e :: rest => do
    let keep ← entityMatches cfg e criteria
    let tail ← filterEntities cfg criteria rest
    if keep then .ok (e :: tail) else .ok tail

/-- Embeds `MemoryRepository.list_by_fields`. -/
def listByFields [LinearOrder V] [Inhabited V] (cfg : MemCfg T Id V)
    (st : MemState T Id V) (criteria : List (String × Cond V))
    (offset : Nat) (limit : Option Nat) (sortBy : Option String) (sortDesc : Bool) :
    Except String (List T) :=
  if criteria.isEmpty then .ok []
  else if vacuousScan criteria then .ok []
  else do
    let matched ← filterEntities cfg criteria (st.items.map Prod.snd)
    let sorted ←
      match sortBy with
      | none => pure matched
      | some f => pySortByField (fun e => cfg.getField e f) sortDesc matched
    let afterOffset := sorted.drop offset
    .ok (match limit with | none => afterOffset | some l => afterOffset.take l)

end MemoryRepository

/-! ### Document-store backend: `mongo_repo` translator

The translator is pure up to the driver round-trip: `_find_by_fields`
builds a query document, validates the sort attribute, and only then
awaits the cursor.  The outcome type separates the two observable
results that matter here: a short-circuit that returns `[]` with zero
backend calls, and a query that is sent to the backend. -/

/-- One translated criterion in a mongo query document. -/
inductive MongoCond (V : Type) where
  | eqNull
  | inQ (vs : List (Option V))
  | rangeQ (m : List (String × RVal V))
  | eqV (v : V)
deriving DecidableEq

/-- Result of `_find_by_fields`: either an early `return []` (no backend
call) or the find/sort/skip/limit pipeline handed to the driver. -/
inductive MongoOut (V : Type) where
  | empty
  | query (q : List (String × MongoCond V)) (sort : Option (String × Bool))
      (skip : Nat) (lim : Option Nat)
deriving DecidableEq

namespace MongoRepository

/-- Embeds `mongo_repo._range_to_mongo`: validates via `iter_range_ops`, then
folds the operators into a `$`-operator dict (`between` lowering to a
combined `$gte`/`$lte`).  The `.vlist [a, b]` shape for `between` is
guaranteed by the validation; other shapes are unreachable and leave
the dict unchanged. -/
def rangeToMongo (ops : List (String × RVal V)) :
    Except String (List (String × RVal V)) := do
  let items ← iter_range_ops ops
  .ok (items.foldl
    (fun q p =>
      if p.1 = "between" then
        match p.2 with
        | .vlist [a, b] => dictSet (dictSet q "$gte" (.scalar a)) "$lte" (.scalar b)
        | _ => q
      else if p.1 = "gte" then dictSet q "$gte" p.2
      else if p.1 = "gt" then dictSet q "$gt" p.2
      else if p.1 = "lte" then dictSet q "$lte" p.2
      else if p.1 = "lt" then dictSet q "$lt" p.2
      else if p.1 = "in" then dictSet q "$in" p.2
      else if p.1 = "eq" then dictSet q "$eq" p.2
      else if p.1 = "ne" then dictSet q "$ne" p.2
      else q)
    [])

/-- The query-building loop of `_find_by_fields`: field names go through
`attr_to_storage` (no attribute-existence check), and an empty translated
range dict triggers `return []` for the whole call (`.ok none`). -/
def buildQuery (attrToStorage : String → String)
    (acc : List (String × MongoCond V)) :
    List (String × Cond V) → Except String (Option (List (String × MongoCond V)))
  | [] => .ok (some acc)
  | (k, v) :: rest =>
    let f := attrToStorage k
    match v with
    | .null => buildQuery attrToStorage (dictSet acc f .eqNull) rest
    | .multi vs => buildQuery attrToStorage (dictSet acc f (.inQ vs)) rest
    | .range ops => do
      let mr ← rangeToMongo ops
      if mr.isEmpty then .ok none
      else buildQuery attrToStorage (dictSet acc f (.rangeQ mr)) rest
    | .scalar s => buildQuery attrToStorage (dictSet acc f (.eqV s)) rest

/-- Embeds `mongo_repo._find_by_fields` up to the driver boundary. -/
def findByFields [DecidableEq V] (hasAttr : String → Bool)
    (attrToStorage : String → String) (criteria : List (String × Cond V))
    (offset : Nat) (limit : Option Nat) (sortBy : Option String) (sortDesc : Bool) :
    Except String (MongoOut V) :=
  if criteria.isEmpty then .ok .empty
  else if vacuousScan criteria then .ok .empty
  else do
    let q ← buildQuery attrToStorage [] criteria
    match q with
    | none => .ok .empty
    | some query =>
      match sortBy with
      | none => .ok (.query query none offset limit)
      | some f =>
        if ¬ hasAttr f then .error ("Invalid sort attribute: " ++ f)
        else .ok (.query query (some (attrToStorage f, sortDesc)) offset limit)

/-- The sort/skip/limit plan of `MongoRepository.list`. -/
structure ListPlan where
  sort : Option (String × Bool)
  skip : Nat
  lim : Nat
deriving DecidableEq

/-- Embeds `MongoRepository.list` up to the driver boundary: the sort attribute
is validated against the mapper before any document is fetched. -/
def list (hasAttr : String → Bool) (attrToStorage : String → String)
    (offset limit : Nat) (sortBy : Option String) (sortDesc : Bool) :
    Except String ListPlan :=
  match sortBy with
  | none => .ok ⟨none, offset, limit⟩
  | some f =>
    if ¬ hasAttr f then .error ("Invalid sort attribute: " ++ f)
    else .ok ⟨some (attrToStorage f, sortDesc), offset, limit⟩

/-- Embeds `replace_one(filter, doc, upsert=False)`: replace the first matching
document, or change nothing when no document matches. -/
def replaceOne (pred : List (String × W) → Bool) (newDoc : List (String × W)) :
    List (List (String × W)) → List (List (String × W))
  | [] => []
  | d :: rest =>
    if pred d then newDoc :: rest else d :: replaceOne pred newDoc rest

/-- Embeds `MongoRepository.update`: build the replacement document with the
identity stored under `id_field`, then `replace_one` on the identity
filter with `upsert=False`. -/
def update [DecidableEq W] (idField : String) (idOf : T → W)
    (toDocument : T → List (String × W)) (e : T)
    (docs : List (List (String × W))) : List (List (String × W)) :=
  let eid := idOf e
  let doc := dictSet (toDocument e) idField eid
  replaceOne (fun d => dictGet d idField = some eid) doc docs

end MongoRepository

/-! ### Relational backend: `sqlalchemy_repo` translator -/

/-- One WHERE-clause conjunct built by `_select_by_fields`. -/
inductive SqlClause (V : Type) where
  | isNull (col : String)
  | inMulti (col : String) (vs : List (Option V))
  | betweenC (col : String) (lo hi : Option V)
  | geC (col : String) (v : RVal V)
  | gtC (col : String) (v : RVal V)
  | leC (col : String) (v : RVal V)
  | ltC (col : String) (v : RVal V)
  | inC (col : String) (v : RVal V)
  | eqC (col : String) (v : RVal V)
  | neC (col : String) (v : RVal V)
  | eqVal (col : String) (v : V)
deriving DecidableEq

/-- Result of `_select_by_fields`: early `return []` (zero backend
calls) or the SELECT statement handed to the engine. -/
inductive SqlOut (V : Type) where
  | empty
  | query (clauses : List (SqlClause V)) (sortCol : String) (desc : Bool)
      (offset : Nat) (lim : Option Nat)
deriving DecidableEq

/-- The mapper capabilities `_select_by_fields` and `list` consume. -/
structure SqlMapperModel (V : Type) where
  hasAttr : String → Bool
  attrToStorage : String → String
  tableCols : List String
  idColumn : String
  entityName : String
  tableName : String

namespace SqlAlchemyRepository

/-- Lower one validated range operator to a clause appended to the list.
`between` uses the inclusive pair; the `.vlist [a, b]` shape is
guaranteed by `iter_range_ops`. -/
def rangeClauses (col : String) (items : List (String × RVal V))
    (acc : List (SqlClause V)) : List (SqlClause V) :=
  items.foldl
    (fun cl p =>
      if p.1 = "between" then
        match p.2 with
        | .vlist [a, b] => cl ++ [.betweenC col a b]
        | _ => cl
      else if p.1 = "gte" then cl ++ [.geC col p.2]
      else if p.1 = "gt" then cl ++ [.gtC col p.2]
      else if p.1 = "lte" then cl ++ [.leC col p.2]
      else if p.1 = "lt" then cl ++ [.ltC col p.2]
      else if p.1 = "in" then cl ++ [.inC col p.2]
      else if p.1 = "eq" then cl ++ [.eqC col p.2]
      else if p.1 = "ne" then cl ++ [.neC col p.2]
      else cl)
    acc

/-- The clause-building loop of `_select_by_fields`: unknown attribute
and missing column each raise a `ValueError`; an empty validated range
dict triggers `return []` for the whole call (`.ok none`). -/
def buildClauses (m : SqlMapperModel V) (acc : List (SqlClause V)) :
    List (String × Cond V) → Except String (Option (List (SqlClause V)))
  | [] => .ok (some acc)
  | (field, value) :: rest =>
    if ¬ m.hasAttr field then
      .error ("Field '" ++ field ++ "' is not a valid attribute for " ++ m.entityName)
    else
      let colName := m.attrToStorage field
      if colName ∉ m.tableCols then
        .error ("Column '" ++ colName ++ "' does not exist on table '" ++ m.tableName ++ "'")
      else
        match value with
        | .null => buildClauses m (acc ++ [.isNull colName]) rest
        | .multi vs => buildClauses m (acc ++ [.inMulti colName vs]) rest
        | .range ops => do
          let items ← iter_range_ops ops
          if items.isEmpty then .ok none
          else buildClauses m (rangeClauses colName items acc) rest
        | .scalar s => buildClauses m (acc ++ [.eqVal colName s]) rest

/-- Embeds `sqlalchemy_repo._select_by_fields` up to the engine boundary:
vacuous-scan, per-field validation and clause building, then sort-column
resolution (unknown sort attribute raises; the sort column is looked up
in `table.c`, a missing column being a `KeyError`). -/
def selectByFields [DecidableEq V] (m : SqlMapperModel V)
    (criteria : List (String × Cond V)) (offset : Nat) (limit : Option Nat)
    (sortBy : Option String) (sortDesc : Bool) : Except String (SqlOut V) :=
  if criteria.isEmpty then .ok .empty
  else if vacuousScan criteria then .ok .empty
  else do
    let cl ← buildClauses m [] criteria
    match cl with
    | none => .ok .empty
    | some clauses => do
      let sortColName ←
        match sortBy with
        | none => pure m.idColumn
        | some f =>
          if ¬ m.hasAttr f then .error ("Invalid sort attribute: " ++ f)
          else pure (m.attrToStorage f)
      if sortColName ∉ m.tableCols then .error ("KeyError: " ++ sortColName)
      else .ok (.query clauses sortColName sortDesc offset limit)

/-- The ORDER BY/OFFSET/LIMIT plan of `SqlAlchemyRepository.list`. -/
structure ListPlan where
  sortCol : String
  desc : Bool
  offset : Nat
  lim : Nat
deriving DecidableEq

/-- Embeds `SqlAlchemyRepository.list` up to the engine boundary: the sort
attribute is validated against the mapper before the statement is
built (defaulting to the identity column). -/
def list (m : SqlMapperModel V) (offset limit : Nat)
    (sortBy : Option String) (sortDesc : Bool) : Except String ListPlan := do
  let colName ←
    match sortBy with
    | none => pure m.idColumn
    | some f =>
      if ¬ m.hasAttr f then .error ("Invalid sort attribute: " ++ f)
      else pure (m.attrToStorage f)
  if colName ∉ m.tableCols then .error ("KeyError: " ++ colName)
  else .ok ⟨colName, sortDesc, offset, limit⟩

/-- Embeds `SqlAlchemyRepository.update`: the row payload is `to_row` minus the
identity column (`row.pop(id_column, None)`, `if not row: return`), and
the UPDATE statement rewrites exactly the rows whose identity column
equals the entity's identity — zero matching rows leave the table
unchanged. -/
def update [DecidableEq W] (idCol : String) (idOf : T → W)
    (toRow : T → List (String × W)) (e : T)
    (rows : List (List (String × W))) : List (List (String × W)) :=
  let eid := idOf e
  let row := dictRemove (toRow e) idCol
  if row.isEmpty then rows
  else rows.map (fun r =>
    if dictGet r idCol = some eid then
      row.foldl (fun acc kv => dictSet acc kv.1 kv.2) r
    else r)

end SqlAlchemyRepository

/-! ### Relation-population engine (`populating_repo._populate`)

The embedding covers one relation of the per-root loop (source lines
123–161): the local reference value has been read (`val`, with Python
`None` as `Option.none`), `lookup` is the per-element resolution
(`repo.get` when `by == "id"`, else `repo.get_by_index(by, v)`), and
`Child` abstracts the emitted child value (`_to_dict(ref)`, or the
recursively populated dict when the root has nested includes — the
recursion happens only on references that did resolve, so it is
orthogonal to the drop/null policy under study). -/

/-- The raw local reference value: a bare scalar or a collection. -/
inductive RefVal (R : Type) where
  | scalar (r : R)
  | refList (rs : List R)

/-- What population writes under the relation's key. -/
inductive PopOut (C : Type) where
  | nullOut
  | one (c : C)
  | many (cs : List C)
deriving DecidableEq

namespace PopulatingRepository

/-- The `many` accumulation loop: unresolved references are skipped
(`if ref is None: continue`), resolved ones are appended in order. -/
def popLoop {R C : Type} (lookup : R → Option C) : List R → List C
  | [] => []
  | r :: rest =>
    match lookup r with
    | none => popLoop lookup rest
    | some c => c :: popLoop lookup rest

/-- One relation of `_populate`'s root loop.  `val` absent/None yields
`[]` for `many` and `null` otherwise; `many` coerces a bare scalar into
a one-element sequence and runs `popLoop`; single-valued resolution
yields `null` when the reference does not resolve.  (A collection in
the single-valued branch would be an unhashable dict key at the
backend, hence the `TypeError`.) -/
def populateField {R C : Type} (many : Bool) (lookup : R → Option C)
    (val : Option (RefVal R)) : Except String (PopOut C) :=
  match val with
  | none => .ok (if many then .many [] else .nullOut)
  | some v =>
    if many then
      let seq := match v with | .scalar r => [r] | .refList rs => rs
      .ok (.many (popLoop lookup seq))
    else
      match v with
      | .refList _ => .error "TypeError: unhashable reference"
      | .scalar r =>
        .ok (match lookup r with | none => .nullOut | some c => .one c)

end PopulatingRepository

/-! ### Derived notions about the memory state machine -/

/-- The spec's unique-index invariant over the stored entities: for
every unique index, no two distinct stored identities map to the same
indexed value. -/
def uniqueInvariant (cfg : MemCfg T Id V) (st : MemState T Id V) : Prop :=
  ∀ p ∈ st.items, ∀ q ∈ st.items, ∀ ex ∈ cfg.extractors,
    p.1 ≠ q.1 → ex.2 p.2 ≠ ex.2 q.2

/-- One repository mutation. -/
inductive MemOp (T Id : Type) where
  | addOp (e : T)
  | updateOp (e : T)
  | deleteOp (i : Id)

/-- Apply one mutation to a memory state. -/
def applyOp [DecidableEq Id] [DecidableEq V] (cfg : MemCfg T Id V)
    (st : MemState T Id V) : MemOp T Id → MemState T Id V
  | .addOp e => MemoryRepository.add cfg st e
  | .updateOp e => MemoryRepository.update cfg st e
  | .deleteOp i => MemoryRepository.delete cfg st i

/-- Apply a finite sequence of mutations. -/
def applyOps [DecidableEq Id] [DecidableEq V] (cfg : MemCfg T Id V)
    (st : MemState T Id V) (ops : List (MemOp T Id)) : MemState T Id V :=
  ops.foldl (applyOp cfg) st

/-- The value→identity map of every index binds each value at most once. -/
def indexKeysUnique (st : MemState T Id V) : Prop :=
  ∀ p ∈ st.indexes, (p.2.map Prod.fst).Nodup

/-- A memory configuration for a single unique index. -/
def singleIdxCfg (idg : T → Id) (n : String) (ext : T → V)
    (truthy : Id → Bool) (gf : T → String → Option V) : MemCfg T Id V :=
  ⟨idg, [(n, ext)], truthy, gf⟩

/-! ### Concrete fixtures (entities are `(id, total)` pairs) -/

/-- A repository of `(id : Nat, total : Int)` entities with no unique index. -/
def cfgEx : MemCfg (Nat × Int) Nat Int :=
  { idGetter := Prod.fst
    extractors := []
    idTruthy := fun i => decide (i ≠ 0)
    getField := fun e fld => if fld = "total" then some e.2 else none }

/-- The same entity shape with one unique index on the `total` field. -/
def cfgIdx : MemCfg (Nat × Int) Nat Int :=
  { idGetter := Prod.fst
    extractors := [("byVal", Prod.snd)]
    idTruthy := fun i => decide (i ≠ 0)
    getField := fun e fld => if fld = "total" then some e.2 else none }

/-- A store holding the single entity `(1, 5)`. -/
def stOne : MemState (Nat × Int) Nat Int :=
  MemoryRepository.add cfgEx (MemoryRepository.init cfgEx) (1, 5)

/-- A store with two entities tied on `total`. -/
def stTies : MemState (Nat × Int) Nat Int :=
  MemoryRepository.add cfgEx (MemoryRepository.add cfgEx (MemoryRepository.init cfgEx) (1, 5)) (2, 5)

/-- Two adds colliding on the unique `total` index. -/
def stColl : MemState (Nat × Int) Nat Int :=
  MemoryRepository.add cfgIdx (MemoryRepository.add cfgIdx (MemoryRepository.init cfgIdx) (1, 7)) (2, 7)

/-- A store with two entities with distinct `total` values, inserted in
descending `total` order. -/
def stTwo : MemState (Nat × Int) Nat Int :=
  MemoryRepository.add cfgEx (MemoryRepository.add cfgEx (MemoryRepository.init cfgEx) (1, 5)) (2, 3)

/-- A relational mapper model for the same `(id, total)` entity shape. -/
def mEx : SqlMapperModel Int :=
  { hasAttr := fun f => decide (f = "id") || decide (f = "total")
    attrToStorage := fun f => f
    tableCols := ["id", "total"]
    idColumn := "id"
    entityName := "Order"
    tableName := "orders" }

/-! ## Theorems -/

/-- The early-return scan fires whenever some criterion is an empty
multi-value or a range with an empty `in` list. -/
theorem vacuousScan_of_mem [DecidableEq V] {criteria : List (String × Cond V)}
    {p : String × Cond V} (hmem : p ∈ criteria)
    (h : isEmptyMulti p.2 = true ∨ hasEmptyIn p.2 = true) :
    vacuousScan criteria = true := by
  induction criteria with
  | nil => cases hmem
  | cons q rest ih =>
    rcases List.mem_cons.mp hmem with rfl | hm
    · rcases h with h | h <;> simp [vacuousScan, h]
    · simp [vacuousScan, ih hm]

/-- C8: for every backend, `list_by_fields` with an empty criteria
mapping returns an empty result (memory) or short-circuits with zero
backend calls (document store, relational), regardless of the store's
contents and of every other parameter. -/
theorem c8_empty_criteria_empty_result {T Id V : Type} [LinearOrder V] [Inhabited V]
    (cfg : MemCfg T Id V) (st : MemState T Id V) (offset : Nat) (limit : Option Nat)
    (sortBy : Option String) (sortDesc : Bool)
    (hasAttr : String → Bool) (attrToStorage : String → String) (m : SqlMapperModel V) :
    MemoryRepository.listByFields cfg st [] offset limit sortBy sortDesc = .ok []
    ∧ MongoRepository.findByFields hasAttr attrToStorage ([] : List (String × Cond V))
        offset limit sortBy sortDesc = .ok .empty
    ∧ SqlAlchemyRepository.selectByFields m [] offset limit sortBy sortDesc = .ok .empty :=
  ⟨rfl, rfl, rfl⟩

/-- C2: a criteria set containing an empty multi-value criterion or a
range criterion whose `in` value is the empty list makes `list_by_fields`
return an empty sequence on the memory backend and short-circuit without
any backend call on the document-store and relational backends. -/
theorem c2_vacuous_criterion_short_circuits {T Id V : Type} [LinearOrder V] [Inhabited V]
    (cfg : MemCfg T Id V) (st : MemState T Id V)
    (hasAttr : String → Bool) (attrToStorage : String → String) (m : SqlMapperModel V)
    (criteria : List (String × Cond V)) (offset : Nat) (limit : Option Nat)
    (sortBy : Option String) (sortDesc : Bool) (p : String × Cond V)
    (hmem : p ∈ criteria) (hvac : isEmptyMulti p.2 = true ∨ hasEmptyIn p.2 = true) :
    MemoryRepository.listByFields cfg st criteria offset limit sortBy sortDesc = .ok []
    ∧ MongoRepository.findByFields hasAttr attrToStorage criteria offset limit sortBy sortDesc
        = .ok .empty
    ∧ SqlAlchemyRepository.selectByFields m criteria offset limit sortBy sortDesc = .ok .empty := by
  have hscan := vacuousScan_of_mem hmem hvac
  refine ⟨?_, ?_, ?_⟩ <;>
    simp [MemoryRepository.listByFields, MongoRepository.findByFields,
      SqlAlchemyRepository.selectByFields, hscan]

/-- Witness for C2: a singleton criteria set with an empty multi-value. -/
theorem c2_vacuous_criterion_short_circuits_witness :
    MemoryRepository.listByFields cfgEx stOne [("total", Cond.multi [])] 0 (some 50) none false
      = .ok []
    ∧ MongoRepository.findByFields (fun _ => true) (fun f => f)
        [("total", Cond.multi ([] : List (Option Int)))] 0 (some 50) none false = .ok .empty
    ∧ SqlAlchemyRepository.selectByFields mEx [("total", Cond.multi [])] 0 (some 50) none false
      = .ok .empty :=
  c2_vacuous_criterion_short_circuits cfgEx stOne (fun _ => true) (fun f => f) mEx
    [("total", Cond.multi [])] 0 (some 50) none false ("total", Cond.multi [])
    (by simp) (Or.inl (by rfl))

/-- The population loop is exactly `filterMap`: unresolved references
are dropped, resolved ones keep their relative order. -/
theorem popLoop_eq_filterMap {R C : Type} (lookup : R → Option C) (refs : List R) :
    PopulatingRepository.popLoop lookup refs = refs.filterMap lookup := by
  induction refs with
  | nil => rfl
  | cons r rest ih =>
    cases h : lookup r <;>
      simp [PopulatingRepository.popLoop, List.filterMap_cons, h, ih]

/-- C4: populating a `many` relation drops every unresolved reference
from the output (no null, no error) while keeping the order of the
resolved ones — the output is exactly `filterMap` of the lookup, and it
distributes over appending reference lists — whereas a single-valued
relation yields `null` for an unresolved reference instead of dropping
the key. -/
theorem c4_population_drop_vs_null {R C : Type} (lookup : R → Option C)
    (refs xs ys : List R) (r : R) :
    PopulatingRepository.populateField true lookup (some (.refList refs))
      = .ok (.many (refs.filterMap lookup))
    ∧ PopulatingRepository.popLoop lookup (xs ++ ys)
      = PopulatingRepository.popLoop lookup xs ++ PopulatingRepository.popLoop lookup ys
    ∧ PopulatingRepository.populateField false lookup (some (.scalar r))
      = .ok (match lookup r with | none => PopOut.nullOut | some c => PopOut.one c) := by
  refine ⟨?_, ?_, ?_⟩
  · simp [PopulatingRepository.populateField, popLoop_eq_filterMap]
  · simp [popLoop_eq_filterMap, List.filterMap_append]
  · rfl

/-- C1 counterexample: on the memory backend, `update` of an entity
whose identity is not stored is *not* a no-op — it inserts the entity,
changing the store's entity count (here from 0 to 1). -/
theorem c1_memory_update_inserts_counterexample :
    (MemoryRepository.update cfgEx (MemoryRepository.init cfgEx) (1, 5)).items.length
      ≠ (MemoryRepository.init cfgEx).items.length := by decide

/-- Calling `replace_one` with a filter matching no document changes nothing. -/
theorem replaceOne_no_match {W : Type} (pred : List (String × W) → Bool)
    (newDoc : List (String × W)) (docs : List (List (String × W)))
    (h : ∀ d ∈ docs, pred d = false) :
    MongoRepository.replaceOne pred newDoc docs = docs := by
  induction docs with
  | nil => rfl
  | cons d rest ih =>
    simp [MongoRepository.replaceOne, h d (List.mem_cons_self d rest),
      ih (fun x hx => h x (List.mem_cons_of_mem d hx))]

/-- Setting an absent key appends one binding. -/
theorem length_dictSet_of_absent {K A : Type} [DecidableEq K]
    {m : List (K × A)} {k : K} (a : A) (h : dictGet m k = none) :
    (dictSet m k a).length = m.length + 1 := by
  induction m with
  | nil => rfl
  | cons p rest ih =>
    by_cases hk : p.1 = k
    · simp [dictGet, hk] at h
    · cases p with
      | mk k' a' =>
        simp only [dictGet] at h ih
        simp only [dictSet]
        rw [if_neg hk]
        simp only [List.length_cons]
        rw [ih]
        · simpa [dictGet, hk] using h

/-- C1 amended: `update` of a non-existent identity is a no-op for the
document-store backend (`replace_one` with `upsert=False` and no
matching document) and for the relational backend (UPDATE matching zero
rows); the memory backend instead inserts the entity, growing the store
by one. -/
theorem c1_update_missing_identity {T1 T2 T3 Id V W1 W2 : Type}
    [DecidableEq W1] [DecidableEq W2] [DecidableEq Id] [DecidableEq V]
    (idField : String) (idOf : T1 → W1) (toDocument : T1 → List (String × W1))
    (e1 : T1) (docs : List (List (String × W1)))
    (idCol : String) (idOf2 : T2 → W2) (toRow : T2 → List (String × W2))
    (e2 : T2) (rows : List (List (String × W2)))
    (cfg : MemCfg T3 Id V) (st : MemState T3 Id V) (e3 : T3) :
    ((∀ d ∈ docs, dictGet d idField ≠ some (idOf e1)) →
      MongoRepository.update idField idOf toDocument e1 docs = docs)
    ∧ ((∀ r ∈ rows, dictGet r idCol ≠ some (idOf2 e2)) →
      SqlAlchemyRepository.update idCol idOf2 toRow e2 rows = rows)
    ∧ (dictGet st.items (cfg.idGetter e3) = none →
      (MemoryRepository.update cfg st e3).items.length = st.items.length + 1) := by
  refine ⟨?_, ?_, ?_⟩
  · intro h
    unfold MongoRepository.update
    exact replaceOne_no_match _ _ _ (fun d hd => decide_eq_false (h d hd))
  · intro h
    unfold SqlAlchemyRepository.update
    by_cases he : (dictRemove (toRow e2) idCol).isEmpty
    · simp [he]
    · simp only [he, Bool.false_eq_true, if_false]
      conv_rhs => rw [← List.map_id rows]
      refine List.map_congr_left (fun r hr => ?_)
      rw [if_neg (h r hr)]
      rfl
  · intro h
    exact length_dictSet_of_absent e3 h

/-- Witness for C1 amended: one non-matching document/row, and a memory
store not containing identity 2. -/
theorem c1_update_missing_identity_witness :
    MongoRepository.update "id" (fun x : Int => x) (fun x => [("total", x)]) 1
      [[("id", (2 : Int))]] = [[("id", (2 : Int))]]
    ∧ SqlAlchemyRepository.update "id" (fun x : Int => x) (fun x => [("total", x)]) 1
      [[("id", (2 : Int))]] = [[("id", (2 : Int))]]
    ∧ (MemoryRepository.update cfgEx stOne (2, 9)).items.length = stOne.items.length + 1 := by
  have h := c1_update_missing_identity "id" (fun x : Int => x) (fun x => [("total", x)]) 1
    [[("id", (2 : Int))]] "id" (fun x : Int => x) (fun x => [("total", x)]) 1
    [[("id", (2 : Int))]] cfgEx stOne ((2 : Nat), (9 : Int))
  exact ⟨h.1 (by decide), h.2.1 (by decide), h.2.2 (by decide)⟩

/-- A successful relational clause build implies every criteria field
passed the attribute check. -/
theorem buildClauses_fields_known {V : Type} [DecidableEq V] (m : SqlMapperModel V) :
    ∀ (criteria : List (String × Cond V)) (acc cl : List (SqlClause V)),
      SqlAlchemyRepository.buildClauses m acc criteria = .ok (some cl) →
      ∀ p ∈ criteria, m.hasAttr p.1 = true := by
  intro criteria
  induction criteria with
  | nil => intro acc cl _ p hp; cases hp
  | cons q rest ih =>
    intro acc cl h p hp
    obtain ⟨field, value⟩ := q
    by_cases hf : m.hasAttr field = true
    · rcases List.mem_cons.mp hp with hpq | hm
      · rw [hpq]; exact hf
      · simp only [SqlAlchemyRepository.buildClauses, hf, not_true, if_false] at h
        by_cases hc : m.attrToStorage field ∈ m.tableCols
        · simp only [hc, not_true, if_false] at h
          cases value with
          | null => exact ih _ _ h p hm
          | multi vs => exact ih _ _ h p hm
          | range ops =>
            dsimp only at h
            cases hio : iter_range_ops ops with
            | error msg => rw [hio] at h; cases h
            | ok items =>
              rw [hio] at h
              by_cases hi : items.isEmpty
              · simp only [Bind.bind, Except.bind, hi, if_true] at h; cases h
              · simp only [Bind.bind, Except.bind, hi, Bool.false_eq_true, if_false] at h
                exact ih _ _ h p hm
          | scalar s => exact ih _ _ h p hm
        · simp only [hc, not_false_iff, if_true] at h; cases h
    · simp only [SqlAlchemyRepository.buildClauses, hf, not_false_iff, if_true] at h
      cases h

/-- A successful relational query implies the clause build succeeded. -/
theorem selectByFields_ok_query {V : Type} [DecidableEq V] (m : SqlMapperModel V)
    (criteria : List (String × Cond V)) (offset : Nat) (limit : Option Nat)
    (sortBy : Option String) (sortDesc : Bool) (cl : List (SqlClause V))
    (c : String) (d : Bool) (o : Nat) (l : Option Nat)
    (h : SqlAlchemyRepository.selectByFields m criteria offset limit sortBy sortDesc
      = .ok (.query cl c d o l)) :
    SqlAlchemyRepository.buildClauses m [] criteria = .ok (some cl) := by
  unfold SqlAlchemyRepository.selectByFields at h
  by_cases he : criteria.isEmpty
  · simp only [he, if_true] at h; cases h
  · simp only [he, Bool.false_eq_true, if_false] at h
    by_cases hv : vacuousScan criteria
    · simp only [hv, if_true] at h; cases h
    · simp only [hv, Bool.false_eq_true, if_false] at h
      cases hb : SqlAlchemyRepository.buildClauses m [] criteria with
      | error msg => rw [hb] at h; cases h
      | ok w =>
        rw [hb] at h
        cases w with
        | none => simp only [Bind.bind, Except.bind] at h; cases h
        | some clauses =>
          simp only [Bind.bind, Except.bind] at h
          cases sortBy with
          | none =>
            simp only [pure, Except.pure] at h
            by_cases hcol : m.idColumn ∉ m.tableCols
            · rw [if_pos hcol] at h; cases h
            · rw [if_neg hcol] at h; cases h; rfl
          | some f =>
            simp only [pure, Except.pure] at h
            by_cases hf : m.hasAttr f = true
            · simp only [hf, not_true, if_false] at h
              by_cases hcol : m.attrToStorage f ∉ m.tableCols
              · rw [if_pos hcol] at h; cases h
              · rw [if_neg hcol] at h; cases h; rfl
            · simp only [hf, not_false_iff, if_true] at h; cases h

/-- Every entity passes the given criteria. -/
theorem filterEntities_all_match {T Id V : Type} [LinearOrder V] (cfg : MemCfg T Id V)
    (criteria : List (String × Cond V)) (l : List T)
    (h : ∀ e ∈ l, MemoryRepository.entityMatches cfg e criteria = .ok true) :
    MemoryRepository.filterEntities cfg criteria l = .ok l := by
  induction l with
  | nil => rfl
  | cons e rest ih =>
    simp only [MemoryRepository.filterEntities, h e (List.mem_cons_self e rest),
      ih (fun x hx => h x (List.mem_cons_of_mem e hx)), Bind.bind, Except.bind, if_true]

/-- C3 counterexample: the memory backend does not raise for an unknown
criteria field — here a `Null` criterion on the unknown field `"bogus"`
*matches* the stored entity (its `getattr` default is `None`), so
`list_by_fields` returns the entity instead of a validation error. -/
theorem c3_unknown_field_counterexample :
    MemoryRepository.listByFields cfgEx stOne [("bogus", Cond.null)] 0 (some 50) none false
      = .ok [(1, 5)] := by rfl

/-- C3 amended: only the relational translator validates criteria field
names — an unknown field raises its `ValueError` and a successfully
built query implies every field passed `has_attr`.  The document-store
translator builds and sends the query for an unknown field unchanged,
and the memory backend matches an unknown field against the absent
(`None`) value, here matching every stored entity. -/
theorem c3_field_validation {T Id V : Type} [LinearOrder V] [Inhabited V]
    (m : SqlMapperModel V) (criteria : List (String × Cond V))
    (offset : Nat) (limit lim2 : Option Nat) (sortBy : Option String) (sortDesc : Bool)
    (k k2 k3 : String) (c : Cond V) (rest : List (String × Cond V))
    (hasAttr : String → Bool) (attrToStorage : String → String) (s : V)
    (cfg : MemCfg T Id V) (st : MemState T Id V) :
    (∀ cl c0 d o l, SqlAlchemyRepository.selectByFields m criteria offset limit sortBy sortDesc
        = .ok (.query cl c0 d o l) → ∀ p ∈ criteria, m.hasAttr p.1 = true)
    ∧ (m.hasAttr k = false → vacuousScan ((k, c) :: rest) = false →
        SqlAlchemyRepository.selectByFields m ((k, c) :: rest) offset limit sortBy sortDesc
          = .error ("Field '" ++ k ++ "' is not a valid attribute for " ++ m.entityName))
    ∧ MongoRepository.findByFields hasAttr attrToStorage [(k2, Cond.scalar s)]
        offset limit none sortDesc
        = .ok (.query [(attrToStorage k2, .eqV s)] none offset limit)
    ∧ ((∀ e, cfg.getField e k3 = none) →
        MemoryRepository.listByFields cfg st [(k3, Cond.null)] 0 lim2 none false
          = .ok (match lim2 with
            | none => st.items.map Prod.snd
            | some l => (st.items.map Prod.snd).take l)) := by
  refine ⟨?_, ?_, ?_, ?_⟩
  · intro cl c0 d o l h
    exact buildClauses_fields_known m criteria [] cl (selectByFields_ok_query m _ _ _ _ _ _ _ _ _ _ h)
  · intro hf hv
    unfold SqlAlchemyRepository.selectByFields
    simp only [List.isEmpty_cons, hv, Bool.false_eq_true, if_false]
    simp only [SqlAlchemyRepository.buildClauses, hf, Bool.false_eq_true, not_false_iff,
      if_true, Bind.bind, Except.bind]
  · unfold MongoRepository.findByFields
    simp [vacuousScan, isEmptyMulti, hasEmptyIn, MongoRepository.buildQuery,
      Bind.bind, Except.bind, dictSet]
  · intro hk
    unfold MemoryRepository.listByFields
    simp only [List.isEmpty_cons, vacuousScan, isEmptyMulti, hasEmptyIn, Bool.false_eq_true,
      Bool.or_self, if_false, Bool.or_false]
    rw [filterEntities_all_match cfg _ _ (fun e _ => by
      simp [MemoryRepository.entityMatches, matchValue, hk e, Bind.bind, Except.bind])]
    simp [Bind.bind, Except.bind, pure, Except.pure, List.drop_zero]

/-- Witness for C3 amended, at the concrete `(id, total)` fixtures. -/
theorem c3_field_validation_witness :
    (mEx.hasAttr "total" = true)
    ∧ SqlAlchemyRepository.selectByFields mEx [("bogus", Cond.scalar (3 : Int))] 0 (some 50)
        none false = .error "Field 'bogus' is not a valid attribute for Order"
    ∧ MongoRepository.findByFields (fun _ => true) (fun f => f)
        [("bogus", Cond.scalar (3 : Int))] 0 (some 50) none false
        = .ok (.query [("bogus", .eqV 3)] none 0 (some 50))
    ∧ MemoryRepository.listByFields cfgEx stOne [("bogus", Cond.null)] 0 (some 50) none false
        = .ok ((stOne.items.map Prod.snd).take 50) := by
  have h := c3_field_validation mEx [("total", Cond.scalar (3 : Int))] 0 (some 50) (some 50)
    none false "bogus" "bogus" "bogus" (Cond.scalar (3 : Int)) []
    (fun _ => true) (fun f => f) (3 : Int) cfgEx stOne
  refine ⟨?_, h.2.1 (by decide) (by decide), h.2.2.1, h.2.2.2 (fun e => rfl)⟩
  exact h.1 [SqlClause.eqVal "total" 3] "id" false 0 (some 50) (by rfl)
    ("total", Cond.scalar 3) (List.mem_singleton.mpr rfl)

/-- C6 counterexample: the memory backend performs no sort-field
validation — listing a one-entity store sorted by the unknown field
`"bogus"` succeeds silently instead of raising. -/
theorem c6_unknown_sort_counterexample :
    MemoryRepository.list cfgEx stOne 0 50 (some "bogus") false = .ok [(1, 5)] := by rfl

/-- C6 amended: the document-store and relational backends validate
`sort_by` against the mapper before touching storage and raise on an
unknown attribute; the memory backend performs no such validation — with
at most one stored entity an unknown sort field silently succeeds (with
two or more it would surface as a `TypeError` from comparing `None`
keys, not as an eager validation error). -/
theorem c6_sort_validation {T Id V : Type} [LinearOrder V] [Inhabited V]
    (hasAttr : String → Bool) (attrToStorage : String → String) (m : SqlMapperModel V)
    (cfg : MemCfg T Id V) (st : MemState T Id V)
    (offset limit : Nat) (f : String) (d : Bool) :
    (hasAttr f = false →
      MongoRepository.list hasAttr attrToStorage offset limit (some f) d
        = .error ("Invalid sort attribute: " ++ f))
    ∧ (m.hasAttr f = false →
      SqlAlchemyRepository.list m offset limit (some f) d
        = .error ("Invalid sort attribute: " ++ f))
    ∧ (st.items.length ≤ 1 →
      MemoryRepository.list cfg st offset limit (some f) d
        = .ok (((st.items.map Prod.snd).drop offset).take limit)) := by
  refine ⟨?_, ?_, ?_⟩
  · intro hf
    simp [MongoRepository.list, hf]
  · intro hf
    simp [SqlAlchemyRepository.list, hf, Bind.bind, Except.bind]
  · intro hlen
    have hv : (st.items.map Prod.snd).length ≤ 1 := by
      simpa [List.length_map] using hlen
    simp [MemoryRepository.list, pySortByField, hv, hlen, Bind.bind, Except.bind]

/-- Witness for C6 amended, at the concrete `(id, total)` fixtures. -/
theorem c6_sort_validation_witness :
    MongoRepository.list (fun _ => false) (fun f => f) 0 50 (some "bogus") false
      = .error "Invalid sort attribute: bogus"
    ∧ SqlAlchemyRepository.list mEx 0 50 (some "bogus") false
      = .error "Invalid sort attribute: bogus"
    ∧ MemoryRepository.list cfgEx stOne 0 50 (some "bogus") false
      = .ok (((stOne.items.map Prod.snd).drop 0).take 50) := by
  have h := c6_sort_validation (fun _ => false) (fun f => f) mEx cfgEx stOne 0 50 "bogus" false
  exact ⟨h.1 rfl, h.2.1 (by decide), h.2.2 (by decide)⟩

/-- A malformed range criterion makes the relational clause build fail
with the validation error, once its field passes the attribute and
column checks. -/
theorem buildClauses_range_error {V : Type} [DecidableEq V] (m : SqlMapperModel V)
    (k : String) (ops : List (String × RVal V)) (rest : List (String × Cond V))
    (acc : List (SqlClause V)) (msg : String)
    (hf : m.hasAttr k = true) (hc : m.attrToStorage k ∈ m.tableCols)
    (hio : iter_range_ops ops = .error msg) :
    SqlAlchemyRepository.buildClauses m acc ((k, Cond.range ops) :: rest) = .error msg := by
  unfold SqlAlchemyRepository.buildClauses
  rw [if_neg (by simp [hf]), if_neg (not_not_intro hc)]
  dsimp only
  rw [hio]
  rfl

/-- A malformed range criterion makes the document-store query build
fail with the validation error. -/
theorem buildQuery_range_error {V : Type} [DecidableEq V] (attrToStorage : String → String)
    (k : String) (ops : List (String × RVal V)) (rest : List (String × Cond V))
    (acc : List (String × MongoCond V)) (msg : String)
    (hio : iter_range_ops ops = .error msg) :
    MongoRepository.buildQuery attrToStorage acc ((k, Cond.range ops) :: rest) = .error msg := by
  unfold MongoRepository.buildQuery
  dsimp only
  rw [show MongoRepository.rangeToMongo ops = .error msg by
    unfold MongoRepository.rangeToMongo; rw [hio]; rfl]
  rfl

/-- C7 counterexample: the memory backend does not raise eagerly on a
malformed range criterion — with an empty store, an unsupported
operator key passes through `list_by_fields` silently (the predicate,
where validation lives, is never evaluated). -/
theorem c7_malformed_range_counterexample :
    MemoryRepository.listByFields cfgEx (MemoryRepository.init cfgEx)
      [("total", Cond.range [("bogus", RVal.scalar (some 1))])] 0 (some 50) none false
      = .ok [] := by rfl

/-- C7 amended: `iter_range_ops` rejects a non-pair `between`, a
non-list `in` and any unknown operator key; the document-store and
relational translators run it while building the query, so the error is
raised eagerly before any backend call; the memory translator runs it
inside the per-entity predicate, so the same malformed criterion is
silently accepted on an empty store and only raises once a stored
entity is evaluated against it. -/
theorem c7_range_validation {T Id V : Type} [LinearOrder V] [Inhabited V]
    (s sv : Option V) (vs : List (Option V)) (op : String) (rv : RVal V)
    (m : SqlMapperModel V) (k k2 : String) (ops ops2 : List (String × RVal V))
    (rest rest2 : List (String × Cond V)) (msg msg2 : String)
    (attrToStorage : String → String) (hasAttr : String → Bool)
    (offset : Nat) (limit : Option Nat) (sortBy : Option String) (sortDesc : Bool)
    (cfg : MemCfg T Id V) (st : MemState T Id V) (criteria : List (String × Cond V)) :
    iter_range_ops [("between", RVal.scalar s)]
      = .error "between expects a list with exactly two values"
    ∧ (vs.length ≠ 2 → iter_range_ops [("between", RVal.vlist vs)]
      = .error "between expects a list with exactly two values")
    ∧ iter_range_ops [("in", RVal.scalar sv)] = .error "in expects a list"
    ∧ (op ≠ "between" → op ≠ "in" → op ∉ simpleOps →
      iter_range_ops [(op, rv)] = .error ("Unsupported operator: " ++ op))
    ∧ (m.hasAttr k = true → m.attrToStorage k ∈ m.tableCols →
      iter_range_ops ops = .error msg →
      vacuousScan ((k, Cond.range ops) :: rest) = false →
      SqlAlchemyRepository.selectByFields m ((k, Cond.range ops) :: rest)
        offset limit sortBy sortDesc = .error msg)
    ∧ (iter_range_ops ops2 = .error msg2 →
      vacuousScan ((k2, Cond.range ops2) :: rest2) = false →
      MongoRepository.findByFields hasAttr attrToStorage ((k2, Cond.range ops2) :: rest2)
        offset limit sortBy sortDesc = .error msg2)
    ∧ (st.items = [] →
      MemoryRepository.listByFields cfg st criteria offset limit sortBy sortDesc = .ok [])
    ∧ MemoryRepository.listByFields cfgEx stOne
        [("total", Cond.range [("bogus", RVal.scalar (some 1))])] 0 (some 50) none false
      = .error "Unsupported operator: bogus" := by
  refine ⟨rfl, ?_, rfl, ?_, ?_, ?_, ?_, rfl⟩
  · intro hlen
    simp [iter_range_ops, checkRangeOps, checkRangeOp, hlen, Bind.bind, Except.bind]
  · intro h1 h2 h3
    simp [iter_range_ops, checkRangeOps, checkRangeOp, h1, h2, h3, Bind.bind, Except.bind]
  · intro hf hc hio hv
    unfold SqlAlchemyRepository.selectByFields
    rw [if_neg (by simp), if_neg (by simp [hv])]
    rw [show (SqlAlchemyRepository.buildClauses m [] ((k, Cond.range ops) :: rest)
        : Except String (Option (List (SqlClause V)))) = .error msg
      from buildClauses_range_error m k ops rest [] msg hf hc hio]
    rfl
  · intro hio hv
    unfold MongoRepository.findByFields
    rw [if_neg (by simp), if_neg (by simp [hv])]
    rw [show (MongoRepository.buildQuery attrToStorage [] ((k2, Cond.range ops2) :: rest2)
        : Except String (Option (List (String × MongoCond V)))) = .error msg2
      from buildQuery_range_error attrToStorage k2 ops2 rest2 [] msg2 hio]
    rfl
  · intro hst
    unfold MemoryRepository.listByFields
    by_cases h1 : criteria.isEmpty
    · rw [if_pos h1]
    · rw [if_neg h1]
      by_cases h2 : vacuousScan criteria = true
      · rw [if_pos h2]
      · rw [if_neg h2]
        rw [hst]
        cases sortBy with
        | none =>
          cases limit <;>
            simp [MemoryRepository.filterEntities, Bind.bind, Except.bind, pure, Except.pure]
        | some f =>
          cases limit <;>
            simp [MemoryRepository.filterEntities, pySortByField, Bind.bind, Except.bind,
              pure, Except.pure]

/-- Witness for C7 amended, at the concrete `(id, total)` fixtures. -/
theorem c7_range_validation_witness :
    (iter_range_ops [("between", RVal.vlist [some (1 : Int)])]
      = .error "between expects a list with exactly two values")
    ∧ (iter_range_ops [("bogus", RVal.scalar (some (1 : Int)))]
      = .error "Unsupported operator: bogus")
    ∧ SqlAlchemyRepository.selectByFields mEx
        [("total", Cond.range [("bogus", RVal.scalar (some (1 : Int)))])] 0 (some 50) none false
      = .error "Unsupported operator: bogus"
    ∧ MongoRepository.findByFields (fun _ => true) (fun f => f)
        [("total", Cond.range [("bogus", RVal.scalar (some (1 : Int)))])] 0 (some 50) none false
      = .error "Unsupported operator: bogus"
    ∧ MemoryRepository.listByFields cfgEx (MemoryRepository.init cfgEx)
        [("total", Cond.range [("bogus", RVal.scalar (some (1 : Int)))])] 0 (some 50) none false
      = .ok [] := by
  have h := c7_range_validation (some (1 : Int)) (some (1 : Int)) [some (1 : Int)] "bogus"
    (RVal.scalar (some (1 : Int))) mEx "total" "total"
    [("bogus", RVal.scalar (some (1 : Int)))] [("bogus", RVal.scalar (some (1 : Int)))]
    [] [] "Unsupported operator: bogus" "Unsupported operator: bogus"
    (fun f => f) (fun _ => true) 0 (some 50) none false cfgEx (MemoryRepository.init cfgEx)
    [("total", Cond.range [("bogus", RVal.scalar (some (1 : Int)))])]
  exact ⟨h.2.1 (by decide), h.2.2.2.1 (by decide) (by decide) (by decide),
    h.2.2.2.2.1 (by decide) (by decide) (by rfl) (by decide),
    h.2.2.2.2.2.1 (by rfl) (by decide),
    h.2.2.2.2.2.2.1 (by rfl)⟩

/-- Keys after a dict assignment come from the assigned key or the old keys. -/
theorem mem_keys_dictSet {K A : Type} [DecidableEq K] {m : List (K × A)} {k x : K} {a : A}
    (h : x ∈ (dictSet m k a).map Prod.fst) : x = k ∨ x ∈ m.map Prod.fst := by
  induction m with
  | nil =>
    simp [dictSet] at h
    exact Or.inl h
  | cons p rest ih =>
    obtain ⟨k', a'⟩ := p
    by_cases hk : k' = k
    · rw [show dictSet ((k', a') :: rest) k a = (k, a) :: rest from by simp [dictSet, hk]] at h
      simp only [List.map_cons, List.mem_cons] at h
      rcases h with h | h
      · exact Or.inl h
      · exact Or.inr (by simp [h])
    · rw [show dictSet ((k', a') :: rest) k a = (k', a') :: dictSet rest k a from by
        simp [dictSet, hk]] at h
      simp only [List.map_cons, List.mem_cons] at h
      rcases h with h | h
      · exact Or.inr (by simp [h])
      · rcases ih h with h2 | h2
        · exact Or.inl h2
        · exact Or.inr (by simp [h2])

/-- Dict assignment preserves key uniqueness. -/
theorem nodup_keys_dictSet {K A : Type} [DecidableEq K] {m : List (K × A)} (k : K) (a : A)
    (h : (m.map Prod.fst).Nodup) : ((dictSet m k a).map Prod.fst).Nodup := by
  induction m with
  | nil => simp [dictSet]
  | cons p rest ih =>
    obtain ⟨k', a'⟩ := p
    simp only [List.map_cons, List.nodup_cons] at h
    obtain ⟨hk', hrest⟩ := h
    by_cases hk : k' = k
    · rw [show dictSet ((k', a') :: rest) k a = (k, a) :: rest from by simp [dictSet, hk]]
      simp only [List.map_cons, List.nodup_cons]
      exact ⟨hk ▸ hk', hrest⟩
    · rw [show dictSet ((k', a') :: rest) k a = (k', a') :: dictSet rest k a from by
        simp [dictSet, hk]]
      simp only [List.map_cons, List.nodup_cons]
      refine ⟨fun hmem => ?_, ih hrest⟩
      rcases mem_keys_dictSet hmem with h2 | h2
      · exact hk h2
      · exact hk' h2

/-- Removing a key yields a sublist. -/
theorem dictRemove_sublist {K A : Type} [DecidableEq K] (m : List (K × A)) (k : K) :
    List.Sublist (dictRemove m k) m := by
  induction m with
  | nil => exact List.Sublist.refl _
  | cons p rest ih =>
    obtain ⟨k', a'⟩ := p
    by_cases hk : k' = k
    · rw [show dictRemove ((k', a') :: rest) k = rest from by simp [dictRemove, hk]]
      exact List.sublist_cons_self _ _
    · rw [show dictRemove ((k', a') :: rest) k = (k', a') :: dictRemove rest k from by
        simp [dictRemove, hk]]
      exact List.Sublist.cons₂ _ ih

/-- Key removal preserves key uniqueness. -/
theorem nodup_keys_dictRemove {K A : Type} [DecidableEq K] {m : List (K × A)} (k : K)
    (h : (m.map Prod.fst).Nodup) : ((dictRemove m k).map Prod.fst).Nodup :=
  List.Nodup.sublist (List.Sublist.map Prod.fst (dictRemove_sublist m k)) h

/-- Entries of a dict after assignment: the new binding or an old entry. -/
theorem mem_dictSet {K A : Type} [DecidableEq K] {m : List (K × A)} {k : K} {a : A}
    {p : K × A} (h : p ∈ dictSet m k a) : p = (k, a) ∨ p ∈ m := by
  induction m with
  | nil =>
    simp [dictSet] at h
    exact Or.inl h
  | cons q rest ih =>
    obtain ⟨k', a'⟩ := q
    by_cases hk : k' = k
    · rw [show dictSet ((k', a') :: rest) k a = (k, a) :: rest from by simp [dictSet, hk]] at h
      rcases List.mem_cons.mp h with h | h
      · exact Or.inl h
      · exact Or.inr (List.mem_cons_of_mem _ h)
    · rw [show dictSet ((k', a') :: rest) k a = (k', a') :: dictSet rest k a from by
        simp [dictSet, hk]] at h
      rcases List.mem_cons.mp h with h | h
      · exact Or.inr (h ▸ List.mem_cons_self _ _)
      · rcases ih h with h2 | h2
        · exact Or.inl h2
        · exact Or.inr (List.mem_cons_of_mem _ h2)

/-- A successful dict lookup exhibits an entry. -/
theorem mem_of_dictGet {K A : Type} [DecidableEq K] {m : List (K × A)} {k : K} {b : A}
    (h : dictGet m k = some b) : (k, b) ∈ m := by
  induction m with
  | nil => cases h
  | cons q rest ih =>
    obtain ⟨k', a'⟩ := q
    by_cases hk : k' = k
    · rw [show dictGet ((k', a') :: rest) k = some a' from by simp [dictGet, hk]] at h
      cases h
      exact hk ▸ List.mem_cons_self _ _
    · rw [show dictGet ((k', a') :: rest) k = dictGet rest k from by simp [dictGet, hk]] at h
      exact List.mem_cons_of_mem _ (ih h)

/-- A left fold preserves any invariant its step preserves. -/
theorem foldl_preserve {α σ : Type} (step : σ → α → σ) (inv : σ → Prop)
    (hstep : ∀ s x, inv s → inv (step s x)) :
    ∀ (L : List α) (s : σ), inv s → inv (L.foldl step s) := by
  intro L
  induction L with
  | nil => intro s h; exact h
  | cons x rest ih => intro s h; exact ih _ (hstep s x h)

/-- The looked-up index of a key-unique table has unique keys
(covering the `getD []` default). -/
theorem nodup_keys_lookup {Id V : Type} [DecidableEq V]
    {ix : List (String × List (V × Id))} (n : String)
    (h : ∀ p ∈ ix, (p.2.map Prod.fst).Nodup) :
    (((dictGet ix n).getD []).map (Prod.fst : V × Id → V)).Nodup := by
  cases hg : dictGet ix n with
  | none => simp
  | some idx => simpa using h (n, idx) (mem_of_dictGet hg)

/-- The `add`/`update` index-writing loop preserves key uniqueness of
every index. -/
theorem indexKeysUnique_writeIndexes {T Id V : Type} [DecidableEq V]
    (cfg : MemCfg T Id V) (e : T) (eid : Id)
    (ix : List (String × List (V × Id))) (h : ∀ p ∈ ix, (p.2.map Prod.fst).Nodup) :
    ∀ p ∈ MemoryRepository.writeIndexes cfg e eid ix, (p.2.map Prod.fst).Nodup := by
  refine foldl_preserve _ (fun s => ∀ p ∈ s, (p.2.map Prod.fst).Nodup) ?_ cfg.extractors ix h
  intro s x hinv p hp
  rcases mem_dictSet hp with h2 | h2
  · rw [h2]
    exact nodup_keys_dictSet _ _ (nodup_keys_lookup x.1 hinv)
  · exact hinv p h2

/-- The `delete` index-cleaning loop preserves key uniqueness of every
index. -/
theorem indexKeysUnique_deleteLoop {T Id V : Type} [DecidableEq Id] [DecidableEq V]
    (cfg : MemCfg T Id V) (ent : T) (eid : Id)
    (ix : List (String × List (V × Id))) (h : ∀ p ∈ ix, (p.2.map Prod.fst).Nodup) :
    ∀ p ∈ cfg.extractors.foldl
      (fun acc p =>
        let idx := (dictGet acc p.1).getD []
        if dictGet idx (p.2 ent) = some eid then
          dictSet acc p.1 (dictRemove idx (p.2 ent))
        else acc)
      ix, (p.2.map Prod.fst).Nodup := by
  refine foldl_preserve _ (fun s => ∀ p ∈ s, (p.2.map Prod.fst).Nodup) ?_ cfg.extractors ix h
  intro s x hinv p hp
  dsimp only at hp
  by_cases hc : dictGet ((dictGet s x.1).getD []) (x.2 ent) = some eid
  · rw [if_pos hc] at hp
    rcases mem_dictSet hp with h2 | h2
    · rw [h2]
      exact nodup_keys_dictRemove _ (nodup_keys_lookup x.1 hinv)
    · exact hinv p h2
  · rw [if_neg hc] at hp
    exact hinv p hp

/-- Every repository mutation preserves key uniqueness of every index. -/
theorem indexKeysUnique_applyOp {T Id V : Type} [DecidableEq Id] [DecidableEq V]
    (cfg : MemCfg T Id V) (st : MemState T Id V) (op : MemOp T Id)
    (h : indexKeysUnique st) : indexKeysUnique (applyOp cfg st op) := by
  cases op with
  | addOp e => exact indexKeysUnique_writeIndexes cfg e _ st.indexes h
  | updateOp e => exact indexKeysUnique_writeIndexes cfg e _ st.indexes h
  | deleteOp i =>
    show indexKeysUnique (MemoryRepository.delete cfg st i)
    unfold MemoryRepository.delete
    cases hget : dictGet st.items i with
    | none => exact h
    | some ent => exact fun p hp => indexKeysUnique_deleteLoop cfg ent i st.indexes h p hp

/-- C5 counterexample: two `add`s colliding on the unique `total` index
both succeed silently — no `ConstraintViolation` is possible (`add` is
total) and both entities stay stored, so two distinct identities map to
the same indexed value, violating the claimed invariant. -/
theorem c5_unique_violation_counterexample :
    stColl.items = [(1, (1, 7)), (2, (2, 7))] ∧ ¬ uniqueInvariant cfgIdx stColl := by
  refine ⟨rfl, fun h => ?_⟩
  have h2 := h (1, (1, 7)) (by decide) (2, (2, 7)) (by decide)
    ("byVal", Prod.snd) (List.mem_singleton.mpr rfl) (by decide)
  exact h2 rfl

/-- C5 amended: the memory backend never raises on a colliding `add`
and does not keep the spec's invariant over stored entities (see the
counterexample); what every add/update/delete sequence does preserve is
uniqueness inside each index map itself — each indexed value is bound
to at most one identity, the most recently written one. -/
theorem c5_index_map_keys_unique {T Id V : Type} [DecidableEq Id] [DecidableEq V]
    (cfg : MemCfg T Id V) (ops : List (MemOp T Id)) :
    indexKeysUnique (applyOps cfg (MemoryRepository.init cfg) ops) := by
  refine foldl_preserve _ indexKeysUnique
    (fun s x hinv => indexKeysUnique_applyOp cfg s x hinv) ops _ ?_
  intro p hp
  rcases List.mem_map.mp hp with ⟨q, _, rfl⟩
  simp

/-- C10: with a single unique index, adding an entity indexed at `v1`
and then updating the same identity to an entity indexed at `v2 ≠ v1`
leaves the stale `v1` entry in the index — `get_by_index` returns the
updated entity for both `v2` and `v1` — and a subsequent delete removes
only the entry for the entity's current value `v2`, leaving the stale
`v1` binding in place (though it then resolves to nothing, the identity
being gone from the store). -/
theorem c10_stale_index_entry {T Id V : Type} [DecidableEq Id] [DecidableEq V]
    (idg : T → Id) (ext : T → V) (n : String) (truthy : Id → Bool)
    (gf : T → String → Option V) (e1 e2 : T) (i : Id) (v1 v2 : V)
    (cfg : MemCfg T Id V) (st2 st3 : MemState T Id V)
    (h1 : idg e1 = i) (h2 : idg e2 = i) (hx1 : ext e1 = v1) (hx2 : ext e2 = v2)
    (hne : v1 ≠ v2) (ht : truthy i = true)
    (hcfg : cfg = singleIdxCfg idg n ext truthy gf)
    (hst2 : st2 = MemoryRepository.update cfg
      (MemoryRepository.add cfg (MemoryRepository.init cfg) e1) e2)
    (hst3 : st3 = MemoryRepository.delete cfg st2 i) :
    MemoryRepository.getByIndex cfg st2 n v2 = some e2
    ∧ MemoryRepository.getByIndex cfg st2 n v1 = some e2
    ∧ st3.indexes = [(n, [(v1, i)])]
    ∧ st3.items = []
    ∧ MemoryRepository.getByIndex cfg st3 n v1 = none
    ∧ MemoryRepository.getByIndex cfg st3 n v2 = none := by
  subst hcfg hst2 hst3
  have hst2' : MemoryRepository.update (singleIdxCfg idg n ext truthy gf)
      (MemoryRepository.add (singleIdxCfg idg n ext truthy gf)
        (MemoryRepository.init (singleIdxCfg idg n ext truthy gf)) e1) e2
      = ⟨[(i, e2)], [(n, [(v1, i), (v2, i)])]⟩ := by
    simp [MemoryRepository.update, MemoryRepository.add, MemoryRepository.init,
      MemoryRepository.writeIndexes, singleIdxCfg, dictSet, dictGet, h1, h2, hx1, hx2, hne]
  rw [hst2']
  have hst3' : MemoryRepository.delete (singleIdxCfg idg n ext truthy gf)
      (⟨[(i, e2)], [(n, [(v1, i), (v2, i)])]⟩ : MemState T Id V) i
      = ⟨[], [(n, [(v1, i)])]⟩ := by
    simp [MemoryRepository.delete, singleIdxCfg, dictSet, dictGet, dictRemove, hx2, hne,
      Ne.symm hne]
  rw [hst3']
  refine ⟨?_, ?_, rfl, rfl, ?_, ?_⟩ <;>
    simp [MemoryRepository.getByIndex, singleIdxCfg, dictGet, hne, Ne.symm hne, ht]

/-- Witness for C10 at the `(id, total)` fixture: add `(1, 7)`, update
to `(1, 9)`, then delete identity 1. -/
theorem c10_stale_index_entry_witness :
    MemoryRepository.getByIndex cfgIdx
      (MemoryRepository.update cfgIdx
        (MemoryRepository.add cfgIdx (MemoryRepository.init cfgIdx) (1, 7)) (1, 9))
      "byVal" 9 = some (1, 9)
    ∧ MemoryRepository.getByIndex cfgIdx
      (MemoryRepository.update cfgIdx
        (MemoryRepository.add cfgIdx (MemoryRepository.init cfgIdx) (1, 7)) (1, 9))
      "byVal" 7 = some (1, 9)
    ∧ (MemoryRepository.delete cfgIdx
      (MemoryRepository.update cfgIdx
        (MemoryRepository.add cfgIdx (MemoryRepository.init cfgIdx) (1, 7)) (1, 9))
      1).indexes = [("byVal", [(7, 1)])]
    ∧ (MemoryRepository.delete cfgIdx
      (MemoryRepository.update cfgIdx
        (MemoryRepository.add cfgIdx (MemoryRepository.init cfgIdx) (1, 7)) (1, 9))
      1).items = []
    ∧ MemoryRepository.getByIndex cfgIdx
      (MemoryRepository.delete cfgIdx
        (MemoryRepository.update cfgIdx
          (MemoryRepository.add cfgIdx (MemoryRepository.init cfgIdx) (1, 7)) (1, 9))
        1) "byVal" 7 = none
    ∧ MemoryRepository.getByIndex cfgIdx
      (MemoryRepository.delete cfgIdx
        (MemoryRepository.update cfgIdx
          (MemoryRepository.add cfgIdx (MemoryRepository.init cfgIdx) (1, 7)) (1, 9))
        1) "byVal" 9 = none :=
  c10_stale_index_entry Prod.fst Prod.snd "byVal" (fun i => decide (i ≠ 0))
    (fun e fld => if fld = "total" then some e.2 else none) (1, 7) (1, 9) 1 7 9
    cfgIdx _ _ rfl rfl rfl rfl (by decide) (by decide) rfl rfl rfl

/-- Lists of at most one element are vacuously pairwise-related. -/
theorem pairwise_of_length_le_one {α : Type} {R : α → α → Prop} {l : List α}
    (h : l.length ≤ 1) : l.Pairwise R := by
  cases l with
  | nil => exact List.Pairwise.nil
  | cons x xs =>
    cases xs with
    | nil => simp
    | cons y ys => simp at h

/-- Lists of at most one element are their own reversal. -/
theorem reverse_of_length_le_one {α : Type} {l : List α} (h : l.length ≤ 1) :
    l.reverse = l := by
  cases l with
  | nil => rfl
  | cons x xs =>
    cases xs with
    | nil => rfl
    | cons y ys => simp at h

/-- Stable keyed insertion permutes consing. -/
theorem pyInsertK_perm {T V : Type} [LinearOrder V] (d : Bool) (key : T → V) (x : T)
    (l : List T) : List.Perm (pyInsertK d key x l) (x :: l) := by
  induction l with
  | nil => exact List.Perm.refl _
  | cons y ys ih =>
    by_cases hc : (if d then key y ≤ key x else key x ≤ key y)
    · rw [show pyInsertK d key x (y :: ys) = x :: y :: ys from by
        simp only [pyInsertK, if_pos hc]]
    · rw [show pyInsertK d key x (y :: ys) = y :: pyInsertK d key x ys from by
        simp only [pyInsertK, if_neg hc]]
      exact (ih.cons y).trans (List.Perm.swap x y ys)

/-- The stable keyed sort is a permutation of its input. -/
theorem pySortK_perm {T V : Type} [LinearOrder V] (d : Bool) (key : T → V) (l : List T) :
    List.Perm (pySortK d key l) l := by
  induction l with
  | nil => exact List.Perm.refl _
  | cons x xs ih => exact (pyInsertK_perm d key x (pySortK d key xs)).trans (ih.cons x)

/-- Inserting into an ascending-sorted list keeps it ascending. -/
theorem pyInsertK_sorted_asc {T V : Type} [LinearOrder V] (key : T → V) (x : T)
    (l : List T) (h : l.Pairwise (fun a b => key a ≤ key b)) :
    (pyInsertK false key x l).Pairwise (fun a b => key a ≤ key b) := by
  induction l with
  | nil => simp [pyInsertK]
  | cons y ys ih =>
    rcases List.pairwise_cons.mp h with ⟨hy, hys⟩
    by_cases hc : key x ≤ key y
    · rw [show pyInsertK false key x (y :: ys) = x :: y :: ys from by
        simp [pyInsertK, hc]]
      refine List.pairwise_cons.mpr ⟨?_, h⟩
      intro b hb
      rcases List.mem_cons.mp hb with rfl | hb
      · exact hc
      · exact hc.trans (hy b hb)
    · rw [show pyInsertK false key x (y :: ys) = y :: pyInsertK false key x ys from by
        simp [pyInsertK, hc]]
      refine List.pairwise_cons.mpr ⟨?_, ih hys⟩
      intro b hb
      rcases List.mem_cons.mp ((pyInsertK_perm false key x ys).mem_iff.mp hb) with h2 | h2
      · exact h2 ▸ le_of_not_le hc
      · exact hy b h2

/-- Inserting into a descending-sorted list keeps it descending. -/
theorem pyInsertK_sorted_desc {T V : Type} [LinearOrder V] (key : T → V) (x : T)
    (l : List T) (h : l.Pairwise (fun a b => key b ≤ key a)) :
    (pyInsertK true key x l).Pairwise (fun a b => key b ≤ key a) := by
  induction l with
  | nil => simp [pyInsertK]
  | cons y ys ih =>
    rcases List.pairwise_cons.mp h with ⟨hy, hys⟩
    by_cases hc : key y ≤ key x
    · rw [show pyInsertK true key x (y :: ys) = x :: y :: ys from by
        simp [pyInsertK, hc]]
      refine List.pairwise_cons.mpr ⟨?_, h⟩
      intro b hb
      rcases List.mem_cons.mp hb with rfl | hb
      · exact hc
      · exact (hy b hb).trans hc
    · rw [show pyInsertK true key x (y :: ys) = y :: pyInsertK true key x ys from by
        simp [pyInsertK, hc]]
      refine List.pairwise_cons.mpr ⟨?_, ih hys⟩
      intro b hb
      rcases List.mem_cons.mp ((pyInsertK_perm true key x ys).mem_iff.mp hb) with h2 | h2
      · exact h2 ▸ le_of_not_le hc
      · exact hy b h2

/-- The ascending stable sort is non-decreasing in the key. -/
theorem pySortK_sorted_asc {T V : Type} [LinearOrder V] (key : T → V) (l : List T) :
    (pySortK false key l).Pairwise (fun a b => key a ≤ key b) := by
  induction l with
  | nil => exact List.Pairwise.nil
  | cons x xs ih => exact pyInsertK_sorted_asc key x _ ih

/-- The descending stable sort is non-increasing in the key. -/
theorem pySortK_sorted_desc {T V : Type} [LinearOrder V] (key : T → V) (l : List T) :
    (pySortK true key l).Pairwise (fun a b => key b ≤ key a) := by
  induction l with
  | nil => exact List.Pairwise.nil
  | cons x xs ih => exact pyInsertK_sorted_desc key x _ ih

/-- With pairwise-distinct keys the descending sort is exactly the
reverse of the ascending sort (on ties it would instead keep the
original order in both directions). -/
theorem pySortK_desc_eq_reverse_asc {T V : Type} [LinearOrder V] (key : T → V)
    (l : List T) (hd : l.Pairwise (fun a b => key a ≠ key b)) :
    pySortK true key l = (pySortK false key l).reverse := by
  have hperm_asc := pySortK_perm false key l
  have hperm_desc := pySortK_perm true key l
  have hsymm : Symmetric (fun a b : T => key a ≠ key b) := fun _ _ h => fun h2 => h h2.symm
  have hne_desc : (pySortK true key l).Pairwise (fun a b => key a ≠ key b) :=
    (hperm_desc.pairwise_iff (fun h => hsymm h)).mpr hd
  have hne_asc : (pySortK false key l).Pairwise (fun a b => key a ≠ key b) :=
    (hperm_asc.pairwise_iff (fun h => hsymm h)).mpr hd
  have hlt_desc : (pySortK true key l).Pairwise (fun a b => key b < key a) :=
    ((pySortK_sorted_desc key l).and hne_desc).imp
      (fun h => lt_of_le_of_ne h.1 (Ne.symm h.2))
  have hlt_revasc : ((pySortK false key l).reverse).Pairwise (fun a b => key b < key a) :=
    List.pairwise_reverse.mpr
      (((pySortK_sorted_asc key l).and hne_asc).imp
        (fun h => lt_of_le_of_ne h.1 h.2))
  have hperm : List.Perm (pySortK true key l) ((pySortK false key l).reverse) :=
    hperm_desc.trans (hperm_asc.symm.trans (List.reverse_perm _).symm)
  haveI : IsAntisymm T (fun a b => key b < key a) :=
    ⟨fun a b h1 h2 => absurd (h1.trans h2) (lt_irrefl _)⟩
  exact List.eq_of_perm_of_sorted hperm hlt_desc hlt_revasc

/-- C9 counterexample: two entities tied on `total` — the ascending and
the descending `list` return the *same* sequence (CPython's
`reverse=True` sort is stable, keeping ties in insertion order), so the
descending result is not the exact reverse of the ascending one. -/
theorem c9_ties_counterexample :
    MemoryRepository.list cfgEx stTies 0 50 (some "total") false = .ok [(1, 5), (2, 5)]
    ∧ MemoryRepository.list cfgEx stTies 0 50 (some "total") true = .ok [(1, 5), (2, 5)]
    ∧ [(1, 5), (2, 5)] ≠ ([(1, 5), (2, 5)] : List (Nat × Int)).reverse := by
  refine ⟨by rfl, by rfl, by decide⟩

/-- C9 amended: with a valid sort field, `list(sort_by=f, asc)` is
non-decreasing in `f` and `list(sort_by=f, desc)` is non-increasing in
`f` (for any offset/limit window); over the full window the two results
are permutations of the stored entities, and the descending sequence is
the exact reverse of the ascending one *when the `f` values are
pairwise distinct* — on ties both directions keep insertion order, so
the exact-reverse law fails (see the counterexample). -/
theorem c9_sort_semantics {T Id V : Type} [LinearOrder V] [Inhabited V]
    (cfg : MemCfg T Id V) (st : MemState T Id V) (f : String)
    (offset limit lim2 : Nat) (out1 out2 o1 o2 : List T) :
    (MemoryRepository.list cfg st offset limit (some f) false = .ok out1 →
      out1.Pairwise (fun a b =>
        (cfg.getField a f).getD default ≤ (cfg.getField b f).getD default))
    ∧ (MemoryRepository.list cfg st offset limit (some f) true = .ok out2 →
      out2.Pairwise (fun a b =>
        (cfg.getField b f).getD default ≤ (cfg.getField a f).getD default))
    ∧ ((st.items.map Prod.snd).all (fun e => (cfg.getField e f).isSome) = true →
      (st.items.map Prod.snd).length ≤ lim2 →
      MemoryRepository.list cfg st 0 lim2 (some f) false = .ok o1 →
      MemoryRepository.list cfg st 0 lim2 (some f) true = .ok o2 →
      List.Perm o1 (st.items.map Prod.snd)
      ∧ List.Perm o2 (st.items.map Prod.snd)
      ∧ ((st.items.map Prod.snd).Pairwise (fun a b =>
          (cfg.getField a f).getD default ≠ (cfg.getField b f).getD default) →
        o2 = o1.reverse)) := by
  refine ⟨?_, ?_, ?_⟩
  · intro h
    unfold MemoryRepository.list at h
    dsimp only at h
    by_cases hl : (st.items.map Prod.snd).length ≤ 1
    · rw [show pySortByField (fun e => cfg.getField e f) false (st.items.map Prod.snd)
          = .ok (st.items.map Prod.snd) from by simp [pySortByField, show st.items.length ≤ 1 from by simpa using hl]] at h
      simp only [Bind.bind, Except.bind, Except.ok.injEq] at h
      rw [← h]
      exact (pairwise_of_length_le_one hl).sublist
        ((List.take_sublist _ _).trans (List.drop_sublist _ _))
    · by_cases ha : (st.items.map Prod.snd).all (fun e => (cfg.getField e f).isSome) = true
      · rw [show pySortByField (fun e => cfg.getField e f) false (st.items.map Prod.snd)
            = .ok (pySortK false (fun e => (cfg.getField e f).getD default)
              (st.items.map Prod.snd)) from by simp [pySortByField, show ¬ st.items.length ≤ 1 from by simpa using hl, ha]] at h
        simp only [Bind.bind, Except.bind, Except.ok.injEq] at h
        rw [← h]
        exact (pySortK_sorted_asc _ _).sublist
          ((List.take_sublist _ _).trans (List.drop_sublist _ _))
      · rw [show pySortByField (fun e => cfg.getField e f) false (st.items.map Prod.snd)
            = .error "TypeError: comparison not supported with None" from by
              simp [pySortByField, show ¬ st.items.length ≤ 1 from by simpa using hl, ha]] at h
        simp only [Bind.bind, Except.bind] at h
        cases h
  · intro h
    unfold MemoryRepository.list at h
    dsimp only at h
    by_cases hl : (st.items.map Prod.snd).length ≤ 1
    · rw [show pySortByField (fun e => cfg.getField e f) true (st.items.map Prod.snd)
          = .ok (st.items.map Prod.snd) from by simp [pySortByField, show st.items.length ≤ 1 from by simpa using hl]] at h
      simp only [Bind.bind, Except.bind, Except.ok.injEq] at h
      rw [← h]
      exact (pairwise_of_length_le_one hl).sublist
        ((List.take_sublist _ _).trans (List.drop_sublist _ _))
    · by_cases ha : (st.items.map Prod.snd).all (fun e => (cfg.getField e f).isSome) = true
      · rw [show pySortByField (fun e => cfg.getField e f) true (st.items.map Prod.snd)
            = .ok (pySortK true (fun e => (cfg.getField e f).getD default)
              (st.items.map Prod.snd)) from by simp [pySortByField, show ¬ st.items.length ≤ 1 from by simpa using hl, ha]] at h
        simp only [Bind.bind, Except.bind, Except.ok.injEq] at h
        rw [← h]
        exact (pySortK_sorted_desc _ _).sublist
          ((List.take_sublist _ _).trans (List.drop_sublist _ _))
      · rw [show pySortByField (fun e => cfg.getField e f) true (st.items.map Prod.snd)
            = .error "TypeError: comparison not supported with None" from by
              simp [pySortByField, show ¬ st.items.length ≤ 1 from by simpa using hl, ha]] at h
        simp only [Bind.bind, Except.bind] at h
        cases h
  · intro ha hlen h1 h2
    unfold MemoryRepository.list at h1 h2
    dsimp only at h1 h2
    by_cases hl : (st.items.map Prod.snd).length ≤ 1
    · rw [show pySortByField (fun e => cfg.getField e f) false (st.items.map Prod.snd)
          = .ok (st.items.map Prod.snd) from by simp [pySortByField, show st.items.length ≤ 1 from by simpa using hl]] at h1
      rw [show pySortByField (fun e => cfg.getField e f) true (st.items.map Prod.snd)
          = .ok (st.items.map Prod.snd) from by simp [pySortByField, show st.items.length ≤ 1 from by simpa using hl]] at h2
      simp only [Bind.bind, Except.bind, Except.ok.injEq, List.drop_zero] at h1 h2
      have e1 : o1 = st.items.map Prod.snd := by
        rw [← h1, List.take_of_length_le hlen]
      have e2 : o2 = st.items.map Prod.snd := by
        rw [← h2, List.take_of_length_le hlen]
      refine ⟨e1 ▸ List.Perm.refl _, e2 ▸ List.Perm.refl _, fun _ => ?_⟩
      rw [e1, e2, reverse_of_length_le_one hl]
    · rw [show pySortByField (fun e => cfg.getField e f) false (st.items.map Prod.snd)
          = .ok (pySortK false (fun e => (cfg.getField e f).getD default)
            (st.items.map Prod.snd)) from by simp [pySortByField, show ¬ st.items.length ≤ 1 from by simpa using hl, ha]] at h1
      rw [show pySortByField (fun e => cfg.getField e f) true (st.items.map Prod.snd)
          = .ok (pySortK true (fun e => (cfg.getField e f).getD default)
            (st.items.map Prod.snd)) from by simp [pySortByField, show ¬ st.items.length ≤ 1 from by simpa using hl, ha]] at h2
      simp only [Bind.bind, Except.bind, Except.ok.injEq, List.drop_zero] at h1 h2
      have hlen1 : (pySortK false (fun e => (cfg.getField e f).getD default)
          (st.items.map Prod.snd)).length ≤ lim2 := by
        rw [(pySortK_perm _ _ _).length_eq]; exact hlen
      have hlen2 : (pySortK true (fun e => (cfg.getField e f).getD default)
          (st.items.map Prod.snd)).length ≤ lim2 := by
        rw [(pySortK_perm _ _ _).length_eq]; exact hlen
      have e1 : o1 = pySortK false (fun e => (cfg.getField e f).getD default)
          (st.items.map Prod.snd) := by
        rw [← h1, List.take_of_length_le hlen1]
      have e2 : o2 = pySortK true (fun e => (cfg.getField e f).getD default)
          (st.items.map Prod.snd) := by
        rw [← h2, List.take_of_length_le hlen2]
      refine ⟨e1 ▸ pySortK_perm _ _ _, e2 ▸ pySortK_perm _ _ _, fun hd => ?_⟩
      rw [e1, e2, pySortK_desc_eq_reverse_asc _ _ hd]

/-- Witness for C9 amended: two entities with distinct totals, inserted
in descending order; ascending and descending listings are permutations
of the store and exact reverses of each other. -/
theorem c9_sort_semantics_witness :
    List.Perm [((2 : Nat), (3 : Int)), (1, 5)] (stTwo.items.map Prod.snd)
    ∧ List.Perm [((1 : Nat), (5 : Int)), (2, 3)] (stTwo.items.map Prod.snd)
    ∧ ([((1 : Nat), (5 : Int)), (2, 3)] : List (Nat × Int))
      = [((2 : Nat), (3 : Int)), (1, 5)].reverse := by
  have h := (c9_sort_semantics cfgEx stTwo "total" 0 50 50 [] []
    [(2, 3), (1, 5)] [(1, 5), (2, 3)]).2.2
    (by rfl) (by decide) (by rfl) (by rfl)
  exact ⟨h.1, h.2.1, h.2.2 (by decide)⟩

end PersistenceKit
